import Mathlib

/-!
A shallow embedding of the job-control core of `src/tsh.c` (a tiny shell with
job control), together with theorems about the job table, the signal handlers,
the bg/fg built-ins, the foreground waiter and the launcher paths.

Modelling conventions:
* `pid_t` values are modelled as `Nat`; real child pids are positive, and the
  source's `pid < 1` guards become `pid = 0` tests.
* The fixed global array `jobs[MAXJOBS]` is a `List Job`; an empty slot is an
  entry with `pid = 0` (as written by `clearjob`).
* C pointers into the array (`getjobpid`, `getjobjid`) are modelled as the
  index of the first matching entry paired with the record stored there;
  mutation through such a pointer is `List.set` at that index.
* Fallible code paths, and paths whose C original dereferences a null job
  pointer (undefined behaviour), return `Option`, with `none` marking the
  crash / `exit(1)` outcome.
* Output (`printf`/`write`) is collected as a `List String`; `kill(-pid, sig)`
  is recorded as a `GroupSignal` value (a fan-out to pid's whole group).
-/

namespace Tsh

/-- Job state codes, exactly the `#define`s of tsh.c. -/
def UNDEF : Nat := 0

/-- Running in foreground (`FG` in tsh.c). -/
def FG : Nat := 1

/-- Running in background (`BG` in tsh.c). -/
def BG : Nat := 2

/-- Stopped (`ST` in tsh.c). -/
def ST : Nat := 3

/-- `MAXJOBS` from tsh.c: max jobs at any point in time. -/
def MAXJOBS : Nat := 16

/-- Linux signal numbers used by the shell. -/
def SIGINT : Nat := 2

/-- SIGCHLD signal number. -/
def SIGCHLD : Nat := 17

/-- SIGCONT signal number. -/
def SIGCONT : Nat := 18

/-- SIGTSTP signal number. -/
def SIGTSTP : Nat := 20

/-- `struct job_t`: per-job data. -/
structure Job where
  pid : Nat
  jid : Nat
  state : Nat
  cmdline : String
deriving DecidableEq, Repr

/-- `clearjob` writes pid = 0, jid = 0, state = UNDEF, cmdline = ""; we model
the cleared slot as this record. -/
def clearjob : Job := { pid := 0, jid := 0, state := UNDEF, cmdline := "" }

/-- The global `jobs` array. -/
abbrev JobTable := List Job

/-- `initjobs`: every slot cleared. -/
def initjobs : JobTable := List.replicate MAXJOBS clearjob

/-- First entry satisfying `q`, returned together with its index: the model of
a C pointer into the `jobs` array obtained by a linear search. -/
def findLoc (q : Job → Bool) : JobTable → Option (Nat × Job)
  | [] => none
  | j :: rest =>
    if q j then some (0, j)
    else (findLoc q rest).map (fun p => (p.1 + 1, p.2))

/-- Whether some entry holds job id `n` (the `taken` array of `freejid`;
faithful for the in-range ids `1 ≤ n ≤ MAXJOBS` that `freejid` queries). -/
def jidTaken (t : JobTable) (n : Nat) : Bool :=
  t.any (fun j => j.jid == n)

/-- The scan of `freejid`: first `i` in `[i0, i0 + fuel)` with `taken[i] = 0`,
else 0. -/
def freejidFrom (t : JobTable) : Nat → Nat → Nat
  | _, 0 => 0
  | i0, fuel + 1 => if jidTaken t i0 then freejidFrom t (i0 + 1) fuel else i0

/-- `freejid`: smallest free job id in `[1, MAXJOBS]`, or 0 if all taken. -/
def freejid (t : JobTable) : Nat :=
  freejidFrom t 1 MAXJOBS

/-- Overwrite the first empty slot (`pid = 0`) with `j`; `none` if no slot is
free — the slot-scan loop of `addjob`. -/
def setFirstFree : JobTable → Job → Option JobTable
  | [], _ => none
  | x :: xs, j =>
    if x.pid = 0 then some (j :: xs)
    else (setFirstFree xs j).map (fun ys => x :: ys)

/-- `addjob jobs pid state cmdline`: returns the new table, the success flag
(the C `return 1`/`return 0`) and the printed output.  Order as in the source:
the `pid < 1` guard, then the `freejid` capacity check (printing
"Tried to create too many jobs" on exhaustion), then the empty-slot scan.
`verbose` is 0, so the diagnostic print is absent. -/
def addjob (t : JobTable) (pid st : Nat) (cmd : String) :
    JobTable × Bool × List String :=
  if pid = 0 then (t, false, [])
  else
    if freejid t = 0 then (t, false, ["Tried to create too many jobs"])
    else
      match setFirstFree t { pid := pid, jid := freejid t, state := st, cmdline := cmd } with
      | some t2 => (t2, true, [])
      | none => (t, false, [])

/-- `deletejob`: clear the first slot whose pid matches; report whether one was
found. -/
def deletejob (t : JobTable) (pid : Nat) : JobTable × Bool :=
  if pid = 0 then (t, false)
  else
    match findLoc (fun j => j.pid == pid) t with
    | some p => (t.set p.1 clearjob, true)
    | none => (t, false)

/-- `fgpid`: pid of the first entry in state FG, else 0. -/
def fgpid (t : JobTable) : Nat :=
  match findLoc (fun j => j.state == FG) t with
  | some p => p.2.pid
  | none => 0

/-- `getjobpid` as a located pointer: index and record of the first entry with
this pid (`NULL` when `pid < 1` or no match). -/
def getjobpidLoc (t : JobTable) (pid : Nat) : Option (Nat × Job) :=
  if pid = 0 then none else findLoc (fun j => j.pid == pid) t

/-- `getjobpid` (record only). -/
def getjobpid (t : JobTable) (pid : Nat) : Option Job :=
  (getjobpidLoc t pid).map (fun p => p.2)

/-- `getjobjid` as a located pointer. -/
def getjobjidLoc (t : JobTable) (jid : Nat) : Option (Nat × Job) :=
  if jid = 0 then none else findLoc (fun j => j.jid == jid) t

/-- `pid2jid`: job id of the entry with this pid, else 0. -/
def pid2jid (t : JobTable) (pid : Nat) : Nat :=
  if pid = 0 then 0
  else
    match findLoc (fun j => j.pid == pid) t with
    | some p => p.2.jid
    | none => 0

/-- `kill(-pgid, sig)`: one signal fanned out to every process of the group
led by `pgid` (the Process Group Abstraction's `signalGroup`). -/
structure GroupSignal where
  pgid : Nat
  sig : Nat
deriving DecidableEq, Repr

/-- Observable outcome of one `do_bgfg` call: the table afterwards, the group
signals sent, the lines printed, and the pid passed to `waitfg` (if any). -/
structure BgfgResult where
  table : JobTable
  kills : List GroupSignal
  out : List String
  waited : Option Nat
deriving DecidableEq, Repr

/-- A `do_bgfg` outcome that only prints: no signal, no mutation, no wait. -/
def noAct (t : JobTable) (msgs : List String) : BgfgResult :=
  { table := t, kills := [], out := msgs, waited := none }

/-- argv[0] of the built-in: "bg" when `isBg`, else "fg". -/
def cmdName (isBg : Bool) : String :=
  if isBg then "bg" else "fg"

/-- The final branch of `do_bgfg`, acting on the resolved job pointer
(index `i`, record `j`): `bg` on a stopped job sends SIGCONT to the group,
sets BG and prints the announcement; `fg` on a stopped or background job sends
SIGCONT, sets FG and calls `waitfg`; any other combination falls through with
no effect at all. -/
def bgfgAct (t : JobTable) (isBg : Bool) (i : Nat) (j : Job) : BgfgResult :=
  if isBg ∧ j.state = ST then
    { table := t.set i { j with state := BG },
      kills := [{ pgid := j.pid, sig := SIGCONT }],
      out := ["[" ++ toString j.jid ++ "] (" ++ toString j.pid ++ ") " ++ j.cmdline],
      waited := none }
  else if (isBg = false) ∧ (j.state = ST ∨ j.state = BG) then
    { table := t.set i { j with state := FG },
      kills := [{ pgid := j.pid, sig := SIGCONT }],
      out := [],
      waited := some j.pid }
  else
    { table := t, kills := [], out := [], waited := none }

/-- `do_bgfg`.  The argument is `none` for a missing argv[1], or
`some (isJid, n)` where `isJid` records a leading `%` and `n` is the `atoi`
value of the digits (0 for a non-numeric string); string tokenisation itself
is the out-of-scope tokenizer collaborator. -/
def do_bgfg (t : JobTable) (isBg : Bool) (arg : Option (Bool × Nat)) : BgfgResult :=
  match arg with
  | none => noAct t [cmdName isBg ++ " command requires PID or %jid argument"]
  | some (true, n) =>
    if n = 0 then noAct t [cmdName isBg ++ ": argument must be a PID or %jid"]
    else
      match getjobjidLoc t n with
      | none => noAct t ["%" ++ toString n ++ ": No such job"]
      | some (i, j) => bgfgAct t isBg i j
  | some (false, n) =>
    if n = 0 then noAct t [cmdName isBg ++ ": argument must be a PID or %jid"]
    else
      match getjobpidLoc t n with
      | none => noAct t ["(" ++ toString n ++ "): No such process"]
      | some (i, j) => bgfgAct t isBg i j

/-- The `sigsuspend` loop of `waitfg`: each list element is the table
transformation performed by the handler of one arriving signal (one wake-up).
The loop re-checks `fgpid jobs == pid` and, while it holds, suspends until the
next wake-up; `none` means the call is still suspended (no further
notification ever arrives).  `sigsuspend(&prev_mask)` atomically unblocks
SIGCHLD and waits, so a wake-up is consumed exactly at a suspension point:
the model makes that atomicity structural. -/
def waitfgLoop (pid : Nat) : JobTable → List (JobTable → JobTable) → Option JobTable
  | t, [] => if fgpid t = pid then none else some t
  | t, e :: rest => if fgpid t = pid then waitfgLoop pid (e t) rest else some t

/-- `waitfg pid`: blocks SIGCHLD on top of the entry mask, runs the suspend
loop, and restores the entry mask with `SIG_SETMASK` on return.  The returned
mask is the caller's mask at entry. -/
def waitfg (pid : Nat) (t : JobTable) (mask : List Nat)
    (events : List (JobTable → JobTable)) : Option (JobTable × List Nat) :=
  (waitfgLoop pid t events).map (fun t2 => (t2, mask))

/-- A reaped wait status: `WIFEXITED`, `WIFSIGNALED` (with `WTERMSIG`) or
`WIFSTOPPED` (with `WSTOPSIG`). -/
inductive WStatus where
  | exited (code : Nat)
  | signaled (sig : Nat)
  | stopped (sig : Nat)
deriving DecidableEq, Repr

/-- The one-line stop notice of `sigchld_handler`. -/
def stopMsg (jid pid sig : Nat) : String :=
  "Job [" ++ toString jid ++ "] (" ++ toString pid ++ ") stopped by signal " ++ toString sig

/-- The one-line termination notice of `sigchld_handler`. -/
def termMsg (jid pid sig : Nat) : String :=
  "Job [" ++ toString jid ++ "] (" ++ toString pid ++ ") terminated by signal " ++ toString sig

/-- One iteration of the `waitpid(-1, &status, WNOHANG | WUNTRACED)` loop
body, given the reaped pid and its status.  In the stopped and the signaled
branches the source composes the notice from `job->jid` and `job->pid`
without checking that `getjobpid` found anything (only the state update is
guarded); a missed lookup there dereferences NULL, modelled as `none`. -/
def sigchld_step (t : JobTable) (pid : Nat) (status : WStatus) :
    Option (JobTable × List String) :=
  match status with
  | .stopped sig =>
    match getjobpidLoc t pid with
    | some (i, j) => some (t.set i { j with state := ST }, [stopMsg j.jid j.pid sig])
    | none => none
  | .signaled sig =>
    match getjobpidLoc t pid with
    | some (_, j) => some ((deletejob t pid).1, [termMsg j.jid j.pid sig])
    | none => none
  | .exited _ => some ((deletejob t pid).1, [])

/-- `sigchld_handler`: the non-blocking reap loop, drained over exactly the
list of already-available status changes (the `WNOHANG` contract: children
whose status has not changed are never waited for, and with nothing pending
the loop exits at once). -/
def sigchld_handler : JobTable → List (Nat × WStatus) → Option (JobTable × List String)
  | t, [] => some (t, [])
  | t, (pid, status) :: rest =>
    match sigchld_step t pid status with
    | none => none
    | some (t1, out1) =>
      match sigchld_handler t1 rest with
      | none => none
      | some (t2, out2) => some (t2, out1 ++ out2)

/-- `sigint_handler`: forward SIGINT to the foreground group, if any. -/
def sigint_handler (t : JobTable) : List GroupSignal :=
  if fgpid t = 0 then [] else [{ pgid := fgpid t, sig := SIGINT }]

/-- `sigtstp_handler`: send SIGTSTP to the whole foreground group when a
foreground pid exists, then mark that job stopped; when `getjobpid` finds no
record (which happens exactly when `fgpid` is 0, since `getjobpid(jobs, 0)` is
NULL) the source calls `exit(1)` — the `none` outcome. -/
def sigtstp_handler (t : JobTable) : List GroupSignal × Option JobTable :=
  match getjobpidLoc t (fgpid t) with
  | none =>
    (if fgpid t = 0 then [] else [{ pgid := fgpid t, sig := SIGTSTP }], none)
  | some (i, j) =>
    (if fgpid t = 0 then [] else [{ pgid := fgpid t, sig := SIGTSTP }],
      some (t.set i { j with state := ST }))

/-- Parent-side actions of the launcher, in program order. -/
inductive Act where
  | fork (pid : Nat)
  | setpgid (pid pgid : Nat)
  | registerJob (pid state : Nat) (ok : Bool)
  | print (s : String)
  | wait (pid : Nat)
deriving DecidableEq, Repr

/-- The external-command branch of `eval` (no pipe), parent side, for a child
that got pid `p`.  Source order: `fork` (line 210) comes first — before any
job-table capacity check — then `setpgid(pid, pid)`, then `addjob`; a
background command prints `[jid] (pid) cmdline` (dereferencing the result of
`getjobpid`, `none` on the NULL case), a foreground command calls
`waitfg(pid)`.  Descriptor and signal-mask plumbing carry no job-table
effect and are not traced. -/
def evalExternal (t : JobTable) (p : Nat) (isBg : Bool) (cmdline : String) :
    Option (JobTable × List Act) :=
  if isBg then
    match addjob t p BG cmdline with
    | (t1, ok, msgs) =>
      match getjobpid t1 p with
      | none => none
      | some j =>
        some (t1,
          [Act.fork p, Act.setpgid p p, Act.registerJob p BG ok]
            ++ msgs.map Act.print
            ++ [Act.print ("[" ++ toString (pid2jid t1 p) ++ "] (" ++ toString p ++ ") " ++ j.cmdline)])
  else
    match addjob t p FG cmdline with
    | (t1, ok, msgs) =>
      some (t1,
        [Act.fork p, Act.setpgid p p, Act.registerJob p FG ok]
          ++ msgs.map Act.print
          ++ [Act.wait p])

/-- Parent side of `my_pipe`, one stage per fresh pid in `pids`.  `isBg` is
the check of the last token of the *original* argv against "&", which the
source re-evaluates (with the same outcome) on every stage iteration.  Per
stage the parent forks, calls `setpgid(pid, pid)` — a fresh process group per
stage — then `addjob`s that stage as its own job, BG stages printing the
announcement and FG stages calling `waitfg(pid)`; handler interleavings
during those waits are not modelled (they cannot change which actions the
loop itself performs).  Pipe-descriptor plumbing has no job-table effect and
is not traced. -/
def my_pipe : JobTable → List Nat → Bool → String → Option (JobTable × List Act)
  | t, [], _, _ => some (t, [])
  | t, p :: rest, isBg, cmdline =>
    match addjob t p (if isBg then BG else FG) cmdline with
    | (t1, ok, msgs) =>
      let pre := [Act.fork p, Act.setpgid p p,
        Act.registerJob p (if isBg then BG else FG) ok] ++ msgs.map Act.print
      if isBg then
        match getjobpid t1 p with
        | none => none
        | some j =>
          match my_pipe t1 rest isBg cmdline with
          | none => none
          | some (t2, acts) =>
            some (t2,
              pre ++ [Act.print ("[" ++ toString (pid2jid t1 p) ++ "] ("
                ++ toString p ++ ") " ++ j.cmdline)] ++ acts)
      else
        match my_pipe t1 rest isBg cmdline with
        | none => none
        | some (t2, acts) => some (t2, pre ++ [Act.wait p] ++ acts)

/-- Number of table entries in state FG. -/
def countFG (t : JobTable) : Nat :=
  t.countP (fun j => j.state == FG)

/-- Where the main control flow stands: at the prompt, or inside a
`waitfg p` call (from `eval` or from the `fg` built-in). -/
inductive Phase where
  | mainLoop : Phase
  | waitingFG : Nat → Phase
deriving DecidableEq, Repr

/-- Shell state: job table plus control-flow phase. -/
structure Shell where
  table : JobTable
  phase : Phase

/-- Phase after a `do_bgfg` call: inside `waitfg` iff the call waited. -/
def nextPhase : Option Nat → Phase
  | none => Phase.mainLoop
  | some p => Phase.waitingFG p

/-- Small-step semantics of every operation that touches the job table,
derived from the call sites in the source: job registration by the launcher
(`eval` and each `my_pipe` stage), the bg/fg built-in, one reap of the
SIGCHLD handler, the SIGTSTP handler (no step when it is fatal), the SIGINT
handler (table unchanged), and the return from `waitfg` once its pid is no
longer the foreground pid.  Launcher and built-in steps run from the main
loop only, since the main flow is inside `waitfg` otherwise; handler steps
run in any phase.  Mutations are atomic steps, per the SIGCHLD-blocking
discipline around every main-path table mutation. -/
inductive Step : Shell → Shell → Prop where
  | startBG : ∀ t p cmd, p ≠ 0 →
      Step ⟨t, Phase.mainLoop⟩ ⟨(addjob t p BG cmd).1, Phase.mainLoop⟩
  | startFG : ∀ t p cmd, p ≠ 0 →
      Step ⟨t, Phase.mainLoop⟩ ⟨(addjob t p FG cmd).1, Phase.waitingFG p⟩
  | bgfg : ∀ t isBg arg,
      Step ⟨t, Phase.mainLoop⟩
        ⟨(do_bgfg t isBg arg).table, nextPhase (do_bgfg t isBg arg).waited⟩
  | chld : ∀ t ph p status t2 out, sigchld_step t p status = some (t2, out) →
      Step ⟨t, ph⟩ ⟨t2, ph⟩
  | tstp : ∀ t ph t2 ks, sigtstp_handler t = (ks, some t2) →
      Step ⟨t, ph⟩ ⟨t2, ph⟩
  | intr : ∀ t ph, Step ⟨t, ph⟩ ⟨t, ph⟩
  | waitDone : ∀ t p, fgpid t ≠ p →
      Step ⟨t, Phase.waitingFG p⟩ ⟨t, Phase.mainLoop⟩

/-- States reachable from the freshly initialised shell. -/
def Reachable (s : Shell) : Prop :=
  Relation.ReflTransGen Step ⟨initjobs, Phase.mainLoop⟩ s

/-- Inductive invariant: at the prompt no job is foreground; inside
`waitfg p` at most one job is foreground and any foreground job has pid `p`. -/
def Inv : Shell → Prop
  | ⟨t, Phase.mainLoop⟩ => countFG t = 0
  | ⟨t, Phase.waitingFG p⟩ =>
    countFG t ≤ 1 ∧ ∀ j ∈ t, j.state = FG → j.pid = p

/-- A small concrete table used to instantiate theorems: a stopped job, a
background job, a foreground job and a free slot. -/
def sampleTable : JobTable :=
  [ { pid := 100, jid := 1, state := ST, cmdline := "sleep 5 " },
    { pid := 200, jid := 2, state := BG, cmdline := "sleep 9 & " },
    { pid := 300, jid := 3, state := FG, cmdline := "cat " },
    clearjob ]

/-- A table with every job id taken: `freejid` is 0 and `addjob` fails. -/
def fullTable : JobTable :=
  (List.range MAXJOBS).map
    (fun i => { pid := 100 + i, jid := i + 1, state := BG, cmdline := "loop & " })

/-- Recognises a job-registration action in a launcher trace. -/
def isRegisterAct : Act → Bool
  | Act.registerJob _ _ _ => true
  | _ => false

/-- The table produced by the two-stage foreground pipeline demo below. -/
def pipeDemoTable : JobTable :=
  Job.mk 100 1 FG "ls | wc " :: Job.mk 101 2 FG "ls | wc "
    :: List.replicate 14 clearjob

/-- The parent-side action trace of the two-stage foreground pipeline demo. -/
def pipeDemoActs : List Act :=
  [Act.fork 100, Act.setpgid 100 100, Act.registerJob 100 FG true, Act.wait 100,
   Act.fork 101, Act.setpgid 101 101, Act.registerJob 101 FG true, Act.wait 101]

/-! ## Helper lemmas about the list primitives -/

theorem countP_cons_true (q : Job → Bool) (x : Job) (l : JobTable) (hx : q x = true) :
    (x :: l).countP q = l.countP q + 1 := by
  rw [List.countP_cons, hx]
  simp only [eq_self_iff_true, if_true]

theorem countP_cons_false (q : Job → Bool) (x : Job) (l : JobTable) (hx : q x = false) :
    (x :: l).countP q = l.countP q := by
  rw [List.countP_cons, hx]
  simp only [Bool.false_eq_true, if_false]
  exact Nat.add_zero _

theorem countP_set_le (q : Job → Bool) :
    ∀ (l : JobTable) (i : Nat) (y : Job), q y = false →
      (l.set i y).countP q ≤ l.countP q := by
  intro l
  induction l with
  | nil => intro i y _; simp
  | cons x xs ih =>
    intro i y hy
    cases i with
    | zero => simp [List.countP_cons, hy]
    | succ n =>
      have := ih n y hy
      simp only [List.set_cons_succ, List.countP_cons]
      omega

theorem countP_set_le_add (q : Job → Bool) :
    ∀ (l : JobTable) (i : Nat) (y : Job),
      (l.set i y).countP q ≤ l.countP q + 1 := by
  intro l
  induction l with
  | nil => intro i y; simp
  | cons x xs ih =>
    intro i y
    cases i with
    | zero => simp only [List.set_cons_zero, List.countP_cons]; split <;> split <;> omega
    | succ n =>
      have := ih n y
      simp only [List.set_cons_succ, List.countP_cons]
      omega

theorem countP_set_add_one (q : Job → Bool) :
    ∀ (l : JobTable) (i : Nat) (x y : Job), l[i]? = some x →
      q x = true → q y = false → (l.set i y).countP q + 1 = l.countP q := by
  intro l
  induction l with
  | nil => intro i x y h _ _; simp at h
  | cons z zs ih =>
    intro i x y h hx hy
    cases i with
    | zero =>
      simp only [List.getElem?_cons_zero, Option.some.injEq] at h
      subst h
      simp [List.set_cons_zero, List.countP_cons, hx, hy]
    | succ n =>
      simp only [List.getElem?_cons_succ] at h
      have := ih n x y h hx hy
      simp only [List.set_cons_succ, List.countP_cons]
      omega

theorem mem_of_getElem? {l : JobTable} {i : Nat} {x : Job}
    (h : l[i]? = some x) : x ∈ l := by
  induction l generalizing i with
  | nil => simp at h
  | cons z zs ih =>
    cases i with
    | zero =>
      simp only [List.getElem?_cons_zero, Option.some.injEq] at h
      subst h; exact List.mem_cons_self z zs
    | succ n =>
      simp only [List.getElem?_cons_succ] at h
      exact List.mem_cons_of_mem z (ih h)

theorem countP_pos_of_getElem? (q : Job → Bool) {l : JobTable} {i : Nat} {x : Job}
    (h : l[i]? = some x) (hx : q x = true) : 1 ≤ l.countP q := by
  have := List.countP_pos_iff (p := q) (l := l) |>.mpr ⟨x, mem_of_getElem? h, hx⟩
  omega

theorem getElem?_eq_of_countP_le_one (q : Job → Bool) :
    ∀ (l : JobTable) (a b : Nat) (x y : Job), l.countP q ≤ 1 →
      l[a]? = some x → l[b]? = some y →
      q x = true → q y = true → a = b := by
  intro l
  induction l with
  | nil => intro a b x y _ h; simp at h
  | cons z zs ih =>
    intro a b x y hle ha hb hx hy
    cases a with
    | zero =>
      cases b with
      | zero => rfl
      | succ n =>
        simp only [List.getElem?_cons_zero, Option.some.injEq] at ha
        simp only [List.getElem?_cons_succ] at hb
        subst ha
        have h1 : 1 ≤ zs.countP q := countP_pos_of_getElem? q hb hy
        rw [countP_cons_true q _ _ hx] at hle
        omega
    | succ m =>
      cases b with
      | zero =>
        simp only [List.getElem?_cons_succ] at ha
        simp only [List.getElem?_cons_zero, Option.some.injEq] at hb
        subst hb
        have h1 : 1 ≤ zs.countP q := countP_pos_of_getElem? q ha hx
        rw [countP_cons_true q _ _ hy] at hle
        omega
      | succ n =>
        simp only [List.getElem?_cons_succ] at ha hb
        have hle2 : zs.countP q ≤ 1 := by
          simp only [List.countP_cons] at hle
          omega
        have := ih m n x y hle2 ha hb hx hy
        omega

/-! ## Helper lemmas about `findLoc` -/

theorem findLoc_some {q : Job → Bool} :
    ∀ {t : JobTable} {i : Nat} {j : Job}, findLoc q t = some (i, j) →
      t[i]? = some j ∧ q j = true := by
  intro t
  induction t with
  | nil => intro i j h; simp [findLoc] at h
  | cons x xs ih =>
    intro i j h
    unfold findLoc at h
    by_cases hx : q x = true
    · rw [if_pos hx] at h
      simp only [Option.some.injEq, Prod.mk.injEq] at h
      obtain ⟨hi, hj⟩ := h
      subst hi; subst hj
      exact ⟨List.getElem?_cons_zero, hx⟩
    · rw [if_neg hx] at h
      cases hrec : findLoc q xs with
      | none => rw [hrec] at h; simp at h
      | some p =>
        rw [hrec] at h
        simp only [Option.map, Option.some.injEq, Prod.mk.injEq] at h
        obtain ⟨hi, hj⟩ := h
        subst hi; subst hj
        have hp : findLoc q xs = some (p.1, p.2) := hrec
        have := ih hp
        exact ⟨by simpa [List.getElem?_cons_succ] using this.1, this.2⟩

theorem findLoc_eq_none {q : Job → Bool} :
    ∀ {t : JobTable}, findLoc q t = none ↔ ∀ x ∈ t, q x = false := by
  intro t
  induction t with
  | nil => simp [findLoc]
  | cons x xs ih =>
    unfold findLoc
    by_cases hx : q x = true
    · rw [if_pos hx]
      constructor
      · intro h; simp at h
      · intro h
        exact absurd (h x (List.mem_cons_self x xs)) (by simp [hx])
    · rw [if_neg hx]
      have hx2 : q x = false := by
        cases hqx : q x with
        | true => exact absurd hqx hx
        | false => rfl
      constructor
      · intro h y hy
        rcases List.mem_cons.mp hy with rfl | hy2
        · exact hx2
        · have hnone : findLoc q xs = none := by
            cases hrec : findLoc q xs with
            | none => rfl
            | some p => rw [hrec] at h; simp at h
          exact ih.mp hnone y hy2
      · intro h
        have hnone : findLoc q xs = none :=
          ih.mpr (fun y hy => h y (List.mem_cons_of_mem x hy))
        rw [hnone]
        rfl

theorem findLoc_isSome_of_mem {q : Job → Bool} {t : JobTable} {x : Job}
    (hm : x ∈ t) (hx : q x = true) : ∃ p, findLoc q t = some p := by
  cases h : findLoc q t with
  | none => exact absurd (findLoc_eq_none.mp h x hm) (by simp [hx])
  | some p => exact ⟨p, rfl⟩

/-! ## Helper lemmas about `setFirstFree`, `addjob`, `deletejob`, `freejid` -/

theorem setFirstFree_mem :
    ∀ {t t2 : JobTable} {j x : Job}, setFirstFree t j = some t2 → x ∈ t2 →
      x = j ∨ x ∈ t := by
  intro t
  induction t with
  | nil => intro t2 j x h; simp [setFirstFree] at h
  | cons z zs ih =>
    intro t2 j x h hx
    unfold setFirstFree at h
    by_cases hz : z.pid = 0
    · rw [if_pos hz] at h
      cases h
      rcases List.mem_cons.mp hx with rfl | hx2
      · exact Or.inl rfl
      · exact Or.inr (List.mem_cons_of_mem z hx2)
    · rw [if_neg hz] at h
      cases hrec : setFirstFree zs j with
      | none => rw [hrec] at h; simp at h
      | some ys =>
        rw [hrec] at h
        simp only [Option.map, Option.some.injEq] at h
        subst h
        rcases List.mem_cons.mp hx with rfl | hx2
        · exact Or.inr (List.mem_cons_self x zs)
        · rcases ih hrec hx2 with h1 | h2
          · exact Or.inl h1
          · exact Or.inr (List.mem_cons_of_mem z h2)

theorem setFirstFree_self_mem :
    ∀ {t t2 : JobTable} {j : Job}, setFirstFree t j = some t2 → j ∈ t2 := by
  intro t
  induction t with
  | nil => intro t2 j h; simp [setFirstFree] at h
  | cons z zs ih =>
    intro t2 j h
    unfold setFirstFree at h
    by_cases hz : z.pid = 0
    · rw [if_pos hz] at h
      cases h
      exact List.mem_cons_self j zs
    · rw [if_neg hz] at h
      cases hrec : setFirstFree zs j with
      | none => rw [hrec] at h; simp at h
      | some ys =>
        rw [hrec] at h
        simp only [Option.map, Option.some.injEq] at h
        subst h
        exact List.mem_cons_of_mem z (ih hrec)

theorem setFirstFree_countP (q : Job → Bool) :
    ∀ {t t2 : JobTable} {j : Job}, setFirstFree t j = some t2 →
      t2.countP q ≤ t.countP q + (if q j then 1 else 0) := by
  intro t
  induction t with
  | nil => intro t2 j h; simp [setFirstFree] at h
  | cons z zs ih =>
    intro t2 j h
    unfold setFirstFree at h
    by_cases hz : z.pid = 0
    · rw [if_pos hz] at h
      cases h
      simp only [List.countP_cons]
      omega
    · rw [if_neg hz] at h
      cases hrec : setFirstFree zs j with
      | none => rw [hrec] at h; simp at h
      | some ys =>
        rw [hrec] at h
        simp only [Option.map, Option.some.injEq] at h
        subst h
        have := ih hrec
        simp only [List.countP_cons]
        omega

/-- The three possible outcomes of `addjob`, by unfolding its control flow. -/
theorem addjob_cases (t : JobTable) (p st : Nat) (cmd : String) :
    ((addjob t p st cmd).1 = t ∧ (addjob t p st cmd).2.1 = false)
    ∨ (p ≠ 0 ∧ freejid t ≠ 0
        ∧ setFirstFree t { pid := p, jid := freejid t, state := st, cmdline := cmd }
            = some (addjob t p st cmd).1
        ∧ (addjob t p st cmd).2.1 = true) := by
  unfold addjob
  by_cases hp : p = 0
  · rw [if_pos hp]
    exact Or.inl ⟨rfl, rfl⟩
  · rw [if_neg hp]
    by_cases hf : freejid t = 0
    · rw [if_pos hf]
      exact Or.inl ⟨rfl, rfl⟩
    · rw [if_neg hf]
      cases hs : setFirstFree t { pid := p, jid := freejid t, state := st, cmdline := cmd } with
      | none => exact Or.inl ⟨rfl, rfl⟩
      | some t2 => exact Or.inr ⟨hp, hf, rfl, rfl⟩

/-- `deletejob` either leaves the table unchanged or clears one slot. -/
theorem deletejob_shape (t : JobTable) (p : Nat) :
    (deletejob t p).1 = t ∨ ∃ i, (deletejob t p).1 = t.set i clearjob := by
  unfold deletejob
  by_cases hp : p = 0
  · rw [if_pos hp]; exact Or.inl rfl
  · rw [if_neg hp]
    cases h : findLoc (fun j => j.pid == p) t with
    | none => exact Or.inl rfl
    | some q => exact Or.inr ⟨q.1, rfl⟩

/-- Specification of the `freejid` scan: a nonzero result is a free id at or
after the start index, and every id before it (from the start index) is
taken. -/
theorem freejidFrom_spec (t : JobTable) :
    ∀ (fuel i0 : Nat), freejidFrom t i0 fuel ≠ 0 →
      i0 ≤ freejidFrom t i0 fuel
      ∧ jidTaken t (freejidFrom t i0 fuel) = false
      ∧ ∀ m, i0 ≤ m → m < freejidFrom t i0 fuel → jidTaken t m = true := by
  intro fuel
  induction fuel with
  | zero => intro i0 h; simp [freejidFrom] at h
  | succ n ih =>
    intro i0 h
    unfold freejidFrom at h ⊢
    by_cases htk : jidTaken t i0 = true
    · rw [if_pos htk] at h ⊢
      obtain ⟨h1, h2, h3⟩ := ih (i0 + 1) h
      refine ⟨by omega, h2, ?_⟩
      intro m hm1 hm2
      by_cases hm0 : m = i0
      · rw [hm0]; exact htk
      · exact h3 m (by omega) hm2
    · rw [if_neg htk] at h ⊢
      have htk2 : jidTaken t i0 = false := by
        cases hq : jidTaken t i0 with
        | true => exact absurd hq htk
        | false => rfl
      exact ⟨Nat.le_refl _, htk2, fun m hm1 hm2 => absurd (Nat.lt_of_le_of_lt hm1 hm2) (Nat.lt_irrefl _)⟩

/-- A nonzero `freejid` is the smallest positive job id not assigned to any
entry of the table. -/
theorem freejid_minimal (t : JobTable) (h : freejid t ≠ 0) :
    1 ≤ freejid t ∧ jidTaken t (freejid t) = false
      ∧ ∀ m, 1 ≤ m → jidTaken t m = false → freejid t ≤ m := by
  obtain ⟨h1, h2, h3⟩ := freejidFrom_spec t MAXJOBS 1 h
  refine ⟨h1, h2, ?_⟩
  intro m hm1 hmf
  by_contra hlt
  have : jidTaken t m = true := h3 m hm1 (Nat.lt_of_not_le hlt)
  rw [this] at hmf
  exact absurd hmf (by simp)

/-! ## Shape lemmas for the signal handlers -/

/-- Any successful `sigchld_step` either keeps the table or writes one slot
with a record that is not foreground (a stopped copy, or a cleared slot). -/
theorem sigchld_step_shape {t t2 : JobTable} {p : Nat} {status : WStatus} {out : List String}
    (h : sigchld_step t p status = some (t2, out)) :
    t2 = t ∨ ∃ i y, y.state ≠ FG ∧ t2 = t.set i y := by
  unfold sigchld_step at h
  cases status with
  | stopped sig =>
    cases hloc : getjobpidLoc t p with
    | none => rw [hloc] at h; simp at h
    | some q =>
      rw [hloc] at h
      simp only [Option.some.injEq, Prod.mk.injEq] at h
      exact Or.inr ⟨q.1, { q.2 with state := ST }, by simp [ST, FG], h.1.symm⟩
  | signaled sig =>
    cases hloc : getjobpidLoc t p with
    | none => rw [hloc] at h; simp at h
    | some q =>
      rw [hloc] at h
      simp only [Option.some.injEq, Prod.mk.injEq] at h
      rcases deletejob_shape t p with hd | ⟨i, hd⟩
      · exact Or.inl (h.1.symm.trans hd)
      · exact Or.inr ⟨i, clearjob, by simp [clearjob, UNDEF, FG], h.1.symm.trans hd⟩
  | exited code =>
    simp only [Option.some.injEq, Prod.mk.injEq] at h
    rcases deletejob_shape t p with hd | ⟨i, hd⟩
    · exact Or.inl (h.1.symm.trans hd)
    · exact Or.inr ⟨i, clearjob, by simp [clearjob, UNDEF, FG], h.1.symm.trans hd⟩

/-- A non-fatal `sigtstp_handler` writes one slot with a stopped record. -/
theorem sigtstp_shape {t t2 : JobTable} {ks : List GroupSignal}
    (h : sigtstp_handler t = (ks, some t2)) :
    ∃ i y, y.state ≠ FG ∧ t2 = t.set i y := by
  unfold sigtstp_handler at h
  cases hloc : getjobpidLoc t (fgpid t) with
  | none => rw [hloc] at h; simp at h
  | some q =>
    rw [hloc] at h
    simp only [Prod.mk.injEq, Option.some.injEq] at h
    exact ⟨q.1, { q.2 with state := ST }, by simp [ST, FG], h.2.symm⟩

/-! ## Lemmas about `fgpid` and `countFG` -/

theorem countFG_zero_iff {t : JobTable} :
    countFG t = 0 ↔ ∀ j ∈ t, (j.state == FG) = false := by
  unfold countFG
  constructor
  · intro h j hj
    cases hq : (j.state == FG) with
    | false => rfl
    | true =>
      have := List.countP_pos_iff (p := fun j => j.state == FG) (l := t) |>.mpr ⟨j, hj, hq⟩
      omega
  · intro h
    cases hc : t.countP (fun j => j.state == FG) with
    | zero => rfl
    | succ n =>
      have hpos : 0 < t.countP (fun j => j.state == FG) := by omega
      obtain ⟨j, hj, hq⟩ := List.countP_pos_iff.mp hpos
      rw [h j hj] at hq
      exact absurd hq (by simp)

theorem ST_beq_FG : ((ST : Nat) == FG) = false := by decide

theorem BG_beq_FG : ((BG : Nat) == FG) = false := by decide

theorem UNDEF_beq_FG : ((UNDEF : Nat) == FG) = false := by decide

theorem FG_beq_FG : ((FG : Nat) == FG) = true := by decide

/-- A nonzero `countFG` exhibits the first foreground entry: its pid is
exactly `fgpid t`. -/
theorem fgpid_of_countFG_pos {t : JobTable} (h : countFG t ≠ 0) :
    ∃ i j, findLoc (fun j => j.state == FG) t = some (i, j)
      ∧ fgpid t = j.pid ∧ j.state = FG ∧ j ∈ t := by
  have hpos : 0 < t.countP (fun j => j.state == FG) := by
    unfold countFG at h; omega
  obtain ⟨x, hx, hq⟩ := List.countP_pos_iff.mp hpos
  obtain ⟨pr, hpr⟩ := findLoc_isSome_of_mem (q := fun j => j.state == FG) hx hq
  obtain ⟨hget, hq2⟩ := findLoc_some (t := t) (i := pr.1) (j := pr.2) (by rw [hpr])
  refine ⟨pr.1, pr.2, by rw [hpr], ?_, by simpa using hq2, mem_of_getElem? hget⟩
  unfold fgpid
  rw [hpr]

/-! ## Lemmas about the job-pointer lookups -/

theorem getjobpidLoc_some {t : JobTable} {p i : Nat} {j : Job}
    (h : getjobpidLoc t p = some (i, j)) :
    t[i]? = some j ∧ j.pid = p ∧ p ≠ 0 := by
  unfold getjobpidLoc at h
  by_cases hp : p = 0
  · rw [if_pos hp] at h; exact absurd h (by simp)
  · rw [if_neg hp] at h
    obtain ⟨hget, hq⟩ := findLoc_some h
    exact ⟨hget, by simpa using hq, hp⟩

theorem getjobjidLoc_some {t : JobTable} {n i : Nat} {j : Job}
    (h : getjobjidLoc t n = some (i, j)) :
    t[i]? = some j ∧ j.jid = n ∧ n ≠ 0 := by
  unfold getjobjidLoc at h
  by_cases hn : n = 0
  · rw [if_pos hn] at h; exact absurd h (by simp)
  · rw [if_neg hn] at h
    obtain ⟨hget, hq⟩ := findLoc_some h
    exact ⟨hget, by simpa using hq, hn⟩

/-! ## Corollaries of `setFirstFree_countP` -/

theorem setFirstFree_countP_of_false (q : Job → Bool) {t t2 : JobTable} {j : Job}
    (h : setFirstFree t j = some t2) (hj : q j = false) :
    t2.countP q ≤ t.countP q := by
  have := setFirstFree_countP q h
  rw [hj] at this
  simpa using this

theorem setFirstFree_countP_of_true (q : Job → Bool) {t t2 : JobTable} {j : Job}
    (h : setFirstFree t j = some t2) (hj : q j = true) :
    t2.countP q ≤ t.countP q + 1 := by
  have := setFirstFree_countP q h
  rw [hj] at this
  simpa using this

/-! ## Preservation of the foreground invariant -/

/-- A table change that at most rewrites one slot with a non-foreground
record preserves the invariant in either phase. -/
theorem Inv_of_shape {t t2 : JobTable} (ph : Phase) (h : Inv ⟨t, ph⟩)
    (hsh : t2 = t ∨ ∃ i y, y.state ≠ FG ∧ t2 = t.set i y) : Inv ⟨t2, ph⟩ := by
  rcases hsh with rfl | ⟨i, y, hy, rfl⟩
  · exact h
  · have hyq : (y.state == FG) = false := by
      cases hq : (y.state == FG) with
      | false => rfl
      | true => exact absurd (by simpa using hq) hy
    cases ph with
    | mainLoop =>
      have h0 : countFG t = 0 := h
      show countFG (t.set i y) = 0
      have := countP_set_le (fun j => j.state == FG) t i y hyq
      unfold countFG at h0 ⊢
      omega
    | waitingFG p =>
      obtain ⟨h1, h2⟩ := h
      refine ⟨?_, ?_⟩
      · have := countP_set_le (fun j => j.state == FG) t i y hyq
        unfold countFG at h1 ⊢
        omega
      · intro x hx hxFG
        rcases List.mem_or_eq_of_mem_set hx with hx2 | rfl
        · exact h2 x hx2 hxFG
        · exact absurd hxFG hy

/-- `bgfgAct` preserves the invariant, starting from the prompt (no
foreground job) with a genuine pointer into the table. -/
theorem bgfgAct_Inv (t : JobTable) (isBg : Bool) (i : Nat) (j : Job)
    (h0 : countFG t = 0) :
    Inv ⟨(bgfgAct t isBg i j).table, nextPhase (bgfgAct t isBg i j).waited⟩ := by
  unfold bgfgAct
  by_cases h1 : isBg = true ∧ j.state = ST
  · rw [if_pos h1]
    show countFG (t.set i { j with state := BG }) = 0
    have hle := countP_set_le (fun j => j.state == FG) t i { j with state := BG } BG_beq_FG
    unfold countFG at h0 ⊢
    omega
  · rw [if_neg h1]
    by_cases h2 : isBg = false ∧ (j.state = ST ∨ j.state = BG)
    · rw [if_pos h2]
      show Inv ⟨t.set i { j with state := FG }, Phase.waitingFG j.pid⟩
      refine ⟨?_, ?_⟩
      · have hle := countP_set_le_add (fun j => j.state == FG) t i { j with state := FG }
        unfold countFG at h0 ⊢
        omega
      · intro x hx hxFG
        rcases List.mem_or_eq_of_mem_set hx with hx2 | rfl
        · have := countFG_zero_iff.mp h0 x hx2
          rw [hxFG] at this
          exact absurd this (by simp [FG_beq_FG])
        · rfl
    · rw [if_neg h2]
      exact h0

/-- `do_bgfg` preserves the invariant, starting from the prompt. -/
theorem do_bgfg_Inv (t : JobTable) (isBg : Bool) (arg : Option (Bool × Nat))
    (h0 : countFG t = 0) :
    Inv ⟨(do_bgfg t isBg arg).table, nextPhase (do_bgfg t isBg arg).waited⟩ := by
  rcases arg with _ | ⟨b, n⟩
  · exact h0
  · cases b with
    | true =>
      have he : do_bgfg t isBg (some (true, n))
          = if n = 0 then noAct t [cmdName isBg ++ ": argument must be a PID or %jid"]
            else match getjobjidLoc t n with
              | none => noAct t ["%" ++ toString n ++ ": No such job"]
              | some (i, j) => bgfgAct t isBg i j := rfl
      rw [he]
      by_cases hn : n = 0
      · rw [if_pos hn]; exact h0
      · rw [if_neg hn]
        cases hloc : getjobjidLoc t n with
        | none => exact h0
        | some pr =>
          show Inv ⟨(bgfgAct t isBg pr.1 pr.2).table, nextPhase (bgfgAct t isBg pr.1 pr.2).waited⟩
          exact bgfgAct_Inv t isBg pr.1 pr.2 h0
    | false =>
      have he : do_bgfg t isBg (some (false, n))
          = if n = 0 then noAct t [cmdName isBg ++ ": argument must be a PID or %jid"]
            else match getjobpidLoc t n with
              | none => noAct t ["(" ++ toString n ++ "): No such process"]
              | some (i, j) => bgfgAct t isBg i j := rfl
      rw [he]
      by_cases hn : n = 0
      · rw [if_pos hn]; exact h0
      · rw [if_neg hn]
        cases hloc : getjobpidLoc t n with
        | none => exact h0
        | some pr =>
          show Inv ⟨(bgfgAct t isBg pr.1 pr.2).table, nextPhase (bgfgAct t isBg pr.1 pr.2).waited⟩
          exact bgfgAct_Inv t isBg pr.1 pr.2 h0

/-- Every transition of the shell's step relation preserves the invariant. -/
theorem step_Inv {s s2 : Shell} (h : Inv s) (hs : Step s s2) : Inv s2 := by
  cases hs with
  | startBG t p cmd hp =>
    have h0 : countFG t = 0 := h
    show countFG (addjob t p BG cmd).1 = 0
    rcases addjob_cases t p BG cmd with ⟨heq, _⟩ | ⟨_, _, hset, _⟩
    · rw [heq]; exact h0
    · have hle := setFirstFree_countP_of_false (fun j => j.state == FG) hset BG_beq_FG
      unfold countFG at h0 ⊢
      omega
  | startFG t p cmd hp =>
    have h0 : countFG t = 0 := h
    refine ⟨?_, ?_⟩
    · rcases addjob_cases t p FG cmd with ⟨heq, _⟩ | ⟨_, _, hset, _⟩
      · rw [heq]; unfold countFG at h0 ⊢; omega
      · have hle := setFirstFree_countP_of_true (fun j => j.state == FG) hset FG_beq_FG
        unfold countFG at h0 ⊢
        omega
    · intro x hx hxFG
      rcases addjob_cases t p FG cmd with ⟨heq, _⟩ | ⟨_, _, hset, _⟩
      · rw [heq] at hx
        have := countFG_zero_iff.mp h0 x hx
        rw [hxFG] at this
        exact absurd this (by simp [FG_beq_FG])
      · rcases setFirstFree_mem hset hx with rfl | hx2
        · rfl
        · have := countFG_zero_iff.mp h0 x hx2
          rw [hxFG] at this
          exact absurd this (by simp [FG_beq_FG])
  | bgfg t isBg arg => exact do_bgfg_Inv t isBg arg h
  | chld t ph p status t2 out hstep => exact Inv_of_shape ph h (sigchld_step_shape hstep)
  | tstp t ph t2 ks hh => exact Inv_of_shape ph h (Or.inr (sigtstp_shape hh))
  | intr t ph => exact h
  | waitDone t p hne =>
    obtain ⟨h1, h2⟩ := h
    show countFG t = 0
    by_contra hc
    obtain ⟨i, j, _, hfg, hstate, hmem⟩ := fgpid_of_countFG_pos hc
    exact hne (hfg.trans (h2 j hmem hstate))

/-- The invariant holds in every reachable state. -/
theorem reachable_Inv {s : Shell} (h : Reachable s) : Inv s := by
  unfold Reachable at h
  induction h with
  | refl => show countFG initjobs = 0; decide
  | tail _ hbc ih => exact step_Inv ih hbc

/-! ## Lemmas about the foreground waiter -/

theorem waitfgLoop_post (pid : Nat) :
    ∀ (evs : List (JobTable → JobTable)) (t t2 : JobTable),
      waitfgLoop pid t evs = some t2 → fgpid t2 ≠ pid := by
  intro evs
  induction evs with
  | nil =>
    intro t t2 h
    unfold waitfgLoop at h
    by_cases hf : fgpid t = pid
    · rw [if_pos hf] at h; exact absurd h (by simp)
    · rw [if_neg hf] at h
      simp only [Option.some.injEq] at h
      subst h
      exact hf
  | cons e rest ih =>
    intro t t2 h
    unfold waitfgLoop at h
    by_cases hf : fgpid t = pid
    · rw [if_pos hf] at h
      exact ih (e t) t2 h
    · rw [if_neg hf] at h
      simp only [Option.some.injEq] at h
      subst h
      exact hf

theorem waitfg_post {pid : Nat} {t : JobTable} {mask : List Nat}
    {evs : List (JobTable → JobTable)} {t2 : JobTable} {m2 : List Nat}
    (h : waitfg pid t mask evs = some (t2, m2)) :
    fgpid t2 ≠ pid ∧ m2 = mask := by
  unfold waitfg at h
  cases hl : waitfgLoop pid t evs with
  | none => rw [hl] at h; simp at h
  | some t3 =>
    rw [hl] at h
    simp only [Option.map, Option.some.injEq, Prod.mk.injEq] at h
    obtain ⟨h1, h2⟩ := h
    subst h1; subst h2
    exact ⟨waitfgLoop_post pid evs t t3 hl, rfl⟩

/-! ## Reduction lemmas for `do_bgfg` and `bgfgAct` -/

theorem fgpid_eq_zero_of_countFG_zero {t : JobTable} (h : countFG t = 0) :
    fgpid t = 0 := by
  have hall := countFG_zero_iff.mp h
  unfold fgpid
  rw [findLoc_eq_none.mpr hall]

theorem do_bgfg_jid_found {t : JobTable} {n i : Nat} {j : Job} (isBg : Bool)
    (hloc : getjobjidLoc t n = some (i, j)) :
    do_bgfg t isBg (some (true, n)) = bgfgAct t isBg i j := by
  have hn : n ≠ 0 := (getjobjidLoc_some hloc).2.2
  have he : do_bgfg t isBg (some (true, n))
      = if n = 0 then noAct t [cmdName isBg ++ ": argument must be a PID or %jid"]
        else match getjobjidLoc t n with
          | none => noAct t ["%" ++ toString n ++ ": No such job"]
          | some (i, j) => bgfgAct t isBg i j := rfl
  rw [he, if_neg hn, hloc]

theorem do_bgfg_pid_found {t : JobTable} {n i : Nat} {j : Job} (isBg : Bool)
    (hloc : getjobpidLoc t n = some (i, j)) :
    do_bgfg t isBg (some (false, n)) = bgfgAct t isBg i j := by
  have hn : n ≠ 0 := (getjobpidLoc_some hloc).2.2
  have he : do_bgfg t isBg (some (false, n))
      = if n = 0 then noAct t [cmdName isBg ++ ": argument must be a PID or %jid"]
        else match getjobpidLoc t n with
          | none => noAct t ["(" ++ toString n ++ "): No such process"]
          | some (i, j) => bgfgAct t isBg i j := rfl
  rw [he, if_neg hn, hloc]

theorem bgfgAct_bg_stopped (t : JobTable) (i : Nat) (j : Job) (hst : j.state = ST) :
    bgfgAct t true i j
      = { table := t.set i { j with state := BG },
          kills := [{ pgid := j.pid, sig := SIGCONT }],
          out := ["[" ++ toString j.jid ++ "] (" ++ toString j.pid ++ ") " ++ j.cmdline],
          waited := none } := by
  unfold bgfgAct
  rw [if_pos ⟨rfl, hst⟩]

theorem bgfgAct_fg_stopped (t : JobTable) (i : Nat) (j : Job) (hst : j.state = ST) :
    bgfgAct t false i j
      = { table := t.set i { j with state := FG },
          kills := [{ pgid := j.pid, sig := SIGCONT }],
          out := [],
          waited := some j.pid } := by
  unfold bgfgAct
  rw [if_neg (fun h => Bool.false_ne_true h.1), if_pos ⟨rfl, Or.inl hst⟩]

theorem bgfgAct_noop (t : JobTable) (isBg : Bool) (i : Nat) (j : Job)
    (h1 : ¬(isBg = true ∧ j.state = ST))
    (h2 : ¬(isBg = false ∧ (j.state = ST ∨ j.state = BG))) :
    bgfgAct t isBg i j = { table := t, kills := [], out := [], waited := none } := by
  unfold bgfgAct
  rw [if_neg h1, if_neg h2]

/-! ## The claims -/

/-- Claim C1: the claim states that a pipeline is registered as exactly one
job (tracked pid = first stage) and that all stages share one process group
led by the first stage.  The source does the opposite: on the two-stage
foreground pipeline `ls | wc` (stage pids 100 and 101, fresh table),
`my_pipe` performs a job registration for *every* stage (two `registerJob`
actions, two live table entries, one per stage pid, each registered as
Foreground with its own `waitfg`), and `setpgid(pid, pid)` gives the second
stage the fresh group 101 instead of joining the first stage's group 100. -/
theorem pipeline_per_stage_registration :
    my_pipe initjobs [100, 101] false "ls | wc " = some (pipeDemoTable, pipeDemoActs)
    ∧ pipeDemoActs.countP isRegisterAct = 2
    ∧ Act.setpgid 100 100 ∈ pipeDemoActs
    ∧ Act.setpgid 101 101 ∈ pipeDemoActs
    ∧ Act.registerJob 100 FG true ∈ pipeDemoActs
    ∧ Act.registerJob 101 FG true ∈ pipeDemoActs
    ∧ (getjobpid pipeDemoTable 100).isSome = true
    ∧ (getjobpid pipeDemoTable 101).isSome = true := by
  decide

/-- Claim C2: in every reachable job-table state, at most one job is in state
Foreground, across any sequence of launcher registrations, bg/fg built-ins,
handler reaps/stops, and waiter returns. -/
theorem at_most_one_foreground (s : Shell) (h : Reachable s) :
    countFG s.table ≤ 1 := by
  have hi := reachable_Inv h
  obtain ⟨t, ph⟩ := s
  cases ph with
  | mainLoop =>
    have h0 : countFG t = 0 := hi
    show countFG t ≤ 1
    omega
  | waitingFG p => exact hi.1

/-- Witness for C2, at the reachable state obtained by registering one
background job from the fresh table. -/
theorem at_most_one_foreground_witness :
    countFG (addjob initjobs 42 BG "sleep 9 & ").1 ≤ 1 :=
  at_most_one_foreground ⟨(addjob initjobs 42 BG "sleep 9 & ").1, Phase.mainLoop⟩
    (Relation.ReflTransGen.tail Relation.ReflTransGen.refl
      (Step.startBG initjobs 42 "sleep 9 & " (by decide)))

/-- Claim C3: a successful `addjob` assigns as the new job id exactly the
smallest positive integer not currently held by any table entry, and
deleting a job (whose id occurs once) frees that id for reuse. -/
theorem jid_minimal_and_reusable :
    (∀ (t : JobTable) (p st : Nat) (cmd : String), (addjob t p st cmd).2.1 = true →
        1 ≤ freejid t
        ∧ jidTaken t (freejid t) = false
        ∧ (∀ m, 1 ≤ m → jidTaken t m = false → freejid t ≤ m)
        ∧ Job.mk p (freejid t) st cmd ∈ (addjob t p st cmd).1)
    ∧ (∀ (t : JobTable) (p i : Nat) (j : Job), getjobpidLoc t p = some (i, j) →
        j.jid ≠ 0 → t.countP (fun x => x.jid == j.jid) ≤ 1 →
        jidTaken (deletejob t p).1 j.jid = false) := by
  constructor
  · intro t p st cmd hok
    rcases addjob_cases t p st cmd with ⟨_, hfalse⟩ | ⟨_, hf, hset, _⟩
    · rw [hok] at hfalse; exact absurd hfalse (by simp)
    · obtain ⟨h1, h2, h3⟩ := freejid_minimal t hf
      exact ⟨h1, h2, h3, setFirstFree_self_mem hset⟩
  · intro t p i j hloc hjid hcount
    obtain ⟨hget, _, hp⟩ := getjobpidLoc_some hloc
    have hfind : findLoc (fun x => x.pid == p) t = some (i, j) := by
      unfold getjobpidLoc at hloc
      rw [if_neg hp] at hloc
      exact hloc
    have hdel : (deletejob t p).1 = t.set i clearjob := by
      unfold deletejob
      rw [if_neg hp, hfind]
    rw [hdel]
    have hqj : (fun x => x.jid == j.jid) j = true := by simp
    have hqc : (fun x => x.jid == j.jid) clearjob = false := by
      show (clearjob.jid == j.jid) = false
      cases hq : (clearjob.jid == j.jid) with
      | false => rfl
      | true =>
        have : clearjob.jid = j.jid := by simpa using hq
        exact absurd this.symm (by simpa [clearjob] using hjid)
    have hdrop := countP_set_add_one (fun x => x.jid == j.jid) t i j clearjob hget hqj hqc
    have hzero : (t.set i clearjob).countP (fun x => x.jid == j.jid) = 0 := by omega
    unfold jidTaken
    cases ha : (t.set i clearjob).any (fun x => x.jid == j.jid) with
    | false => rfl
    | true =>
      obtain ⟨x, hx, hqx⟩ := List.any_eq_true.mp ha
      have := (List.countP_pos_iff (p := fun y => y.jid == j.jid)
        (l := t.set i clearjob)).mpr ⟨x, hx, hqx⟩
      omega

/-- Witness for C3: a fresh single-slot table hands out id 1 to the new job,
and deleting pid 100 from the sample table frees id 1. -/
theorem jid_minimal_and_reusable_witness :
    Job.mk 7 1 BG "x " ∈ (addjob [clearjob] 7 BG "x ").1
    ∧ jidTaken (deletejob sampleTable 100).1 1 = false :=
  ⟨(jid_minimal_and_reusable.1 [clearjob] 7 BG "x " (by decide)).2.2.2,
   jid_minimal_and_reusable.2 sampleTable 100 0 (Job.mk 100 1 ST "sleep 5 ")
     (by decide) (by decide) (by decide)⟩

/-- Claim C4: one invocation of the SIGCHLD handler drains exactly the list
of already-available status changes (returning at once when none is
pending and composing over concatenation of pending lists), and dispatches
each drained status: a stopped child's job is set to ST with a one-line
notice, a signal-terminated child gets a one-line notice and its job is
removed, a normally exited child's job is removed with no output. -/
theorem sigchld_drains_and_dispatches :
    (∀ t : JobTable, sigchld_handler t [] = some (t, []))
    ∧ (∀ (t : JobTable) (p s i : Nat) (j : Job), getjobpidLoc t p = some (i, j) →
        sigchld_step t p (WStatus.stopped s)
          = some (t.set i { j with state := ST }, [stopMsg j.jid j.pid s]))
    ∧ (∀ (t : JobTable) (p s i : Nat) (j : Job), getjobpidLoc t p = some (i, j) →
        sigchld_step t p (WStatus.signaled s)
          = some ((deletejob t p).1, [termMsg j.jid j.pid s]))
    ∧ (∀ (t : JobTable) (p c : Nat),
        sigchld_step t p (WStatus.exited c) = some ((deletejob t p).1, []))
    ∧ (∀ (t : JobTable) (evs1 evs2 : List (Nat × WStatus)) (t1 : JobTable)
          (out1 : List String),
        sigchld_handler t evs1 = some (t1, out1) →
        sigchld_handler t (evs1 ++ evs2)
          = (sigchld_handler t1 evs2).map (fun r => (r.1, out1 ++ r.2))) := by
  refine ⟨fun t => rfl, ?_, ?_, fun t p c => rfl, ?_⟩
  · intro t p s i j h
    unfold sigchld_step
    rw [h]
  · intro t p s i j h
    unfold sigchld_step
    rw [h]
  · intro t evs1
    induction evs1 generalizing t with
    | nil =>
      intro evs2 t1 out1 h
      unfold sigchld_handler at h
      simp only [Option.some.injEq, Prod.mk.injEq] at h
      obtain ⟨h1, h2⟩ := h
      subst h1; subst h2
      rw [List.nil_append]
      cases hr : sigchld_handler t evs2 with
      | none => rfl
      | some r => simp
    | cons e rest ih =>
      intro evs2 t1 out1 h
      obtain ⟨pd, st⟩ := e
      unfold sigchld_handler at h
      cases hstep : sigchld_step t pd st with
      | none =>
        rw [hstep] at h
        simp at h
      | some r1 =>
        rw [hstep] at h
        obtain ⟨ta, outa⟩ := r1
        have hcut : (match sigchld_handler ta rest with
            | none => none
            | some (tb, outb) => some (tb, outa ++ outb)) = some (t1, out1) := h
        cases hrec : sigchld_handler ta rest with
        | none => rw [hrec] at hcut; simp at hcut
        | some r2 =>
          rw [hrec] at hcut
          obtain ⟨tb, outb⟩ := r2
          simp only [Option.some.injEq, Prod.mk.injEq] at hcut
          obtain ⟨hb1, hb2⟩ := hcut
          subst hb1; subst hb2
          rw [List.cons_append]
          show (match sigchld_step t pd st with
              | none => none
              | some (ta2, outa2) =>
                match sigchld_handler ta2 (rest ++ evs2) with
                | none => none
                | some (tb2, outb2) => some (tb2, outa2 ++ outb2))
            = Option.map (fun r => (r.1, (outa ++ outb) ++ r.2)) (sigchld_handler tb evs2)
          rw [hstep]
          show (match sigchld_handler ta (rest ++ evs2) with
              | none => none
              | some (tb2, outb2) => some (tb2, outa ++ outb2))
            = Option.map (fun r => (r.1, (outa ++ outb) ++ r.2)) (sigchld_handler tb evs2)
          rw [ih ta evs2 tb outb hrec]
          cases hc : sigchld_handler tb evs2 with
          | none => rfl
          | some r3 => simp [List.append_assoc]

/-- Witness for C4: reaping a stop of pid 100 on the sample table. -/
theorem sigchld_drains_and_dispatches_witness :
    sigchld_step sampleTable 100 (WStatus.stopped 20)
      = some (sampleTable.set 0 { Job.mk 100 1 ST "sleep 5 " with state := ST },
          [stopMsg 1 100 20]) :=
  sigchld_drains_and_dispatches.2.1 sampleTable 100 20 0 (Job.mk 100 1 ST "sleep 5 ")
    (by decide)

/-- Claim C5: `waitfg pid` returns only in a state where `pid` is no longer
the tracked foreground pid and with the caller's entry mask restored; with
the foreground condition still true it stays suspended when no notification
arrives, and each arriving notification is consumed by exactly one
re-check-and-suspend iteration (no busy polling; the atomicity of
`sigsuspend`'s unblock-and-wait is structural in the model). -/
theorem waitfg_contract :
    (∀ (pid : Nat) (t : JobTable) (mask : List Nat)
        (evs : List (JobTable → JobTable)) (t2 : JobTable) (m2 : List Nat),
        waitfg pid t mask evs = some (t2, m2) → fgpid t2 ≠ pid ∧ m2 = mask)
    ∧ (∀ (pid : Nat) (t : JobTable) (mask : List Nat), fgpid t = pid →
        waitfg pid t mask [] = none)
    ∧ (∀ (pid : Nat) (t : JobTable) (mask : List Nat) (e : JobTable → JobTable)
        (rest : List (JobTable → JobTable)), fgpid t = pid →
        waitfg pid t mask (e :: rest) = waitfg pid (e t) mask rest) := by
  refine ⟨fun pid t mask evs t2 m2 h => waitfg_post h, ?_, ?_⟩
  · intro pid t mask hf
    show (waitfgLoop pid t []).map (fun t2 => (t2, mask)) = none
    have he : waitfgLoop pid t [] = if fgpid t = pid then none else some t := rfl
    rw [he, if_pos hf]
    rfl
  · intro pid t mask e rest hf
    show (waitfgLoop pid t (e :: rest)).map (fun t2 => (t2, mask))
        = (waitfgLoop pid (e t) rest).map (fun t2 => (t2, mask))
    have he : waitfgLoop pid t (e :: rest)
        = if fgpid t = pid then waitfgLoop pid (e t) rest else some t := rfl
    rw [he, if_pos hf]

/-- Witness for C5: waiting on pid 300 over the sample table, woken once by a
reap that deletes the job, returns with the entry mask and a non-foreground
pid; with no wake-up it stays suspended. -/
theorem waitfg_contract_witness :
    (fgpid (deletejob sampleTable 300).1 ≠ 300 ∧ ([2] : List Nat) = [2])
    ∧ waitfg 300 sampleTable [2] [] = none :=
  ⟨waitfg_contract.1 300 sampleTable [2] [fun t => (deletejob t 300).1]
      (deletejob sampleTable 300).1 [2] (by decide),
   waitfg_contract.2.1 300 sampleTable [2] (by decide)⟩

/-- Claim C6: on a live job in state ST (resolved by %jid or by pid), `bg`
sends SIGCONT to the job's whole process group and sets its state to BG,
while `fg` sends SIGCONT to the group, sets the state to FG and then invokes
the foreground waiter on the job's pid — and any return of that waiter is in
a state where the job is no longer the foreground job. -/
theorem bgfg_resume_stopped :
    ∀ (t : JobTable) (n i : Nat) (j : Job), j.state = ST →
      (getjobjidLoc t n = some (i, j) →
        do_bgfg t true (some (true, n))
          = { table := t.set i { j with state := BG },
              kills := [{ pgid := j.pid, sig := SIGCONT }],
              out := ["[" ++ toString j.jid ++ "] (" ++ toString j.pid ++ ") " ++ j.cmdline],
              waited := none }
        ∧ do_bgfg t false (some (true, n))
          = { table := t.set i { j with state := FG },
              kills := [{ pgid := j.pid, sig := SIGCONT }],
              out := [],
              waited := some j.pid })
      ∧ (getjobpidLoc t n = some (i, j) →
        do_bgfg t true (some (false, n))
          = { table := t.set i { j with state := BG },
              kills := [{ pgid := j.pid, sig := SIGCONT }],
              out := ["[" ++ toString j.jid ++ "] (" ++ toString j.pid ++ ") " ++ j.cmdline],
              waited := none }
        ∧ do_bgfg t false (some (false, n))
          = { table := t.set i { j with state := FG },
              kills := [{ pgid := j.pid, sig := SIGCONT }],
              out := [],
              waited := some j.pid })
      ∧ (∀ (mask : List Nat) (evs : List (JobTable → JobTable)) (t2 : JobTable)
            (m2 : List Nat),
          waitfg j.pid (t.set i { j with state := FG }) mask evs = some (t2, m2) →
          fgpid t2 ≠ j.pid) := by
  intro t n i j hst
  refine ⟨?_, ?_, ?_⟩
  · intro hloc
    rw [do_bgfg_jid_found true hloc, do_bgfg_jid_found false hloc]
    exact ⟨bgfgAct_bg_stopped t i j hst, bgfgAct_fg_stopped t i j hst⟩
  · intro hloc
    rw [do_bgfg_pid_found true hloc, do_bgfg_pid_found false hloc]
    exact ⟨bgfgAct_bg_stopped t i j hst, bgfgAct_fg_stopped t i j hst⟩
  · intro mask evs t2 m2 h
    exact (waitfg_post h).1

/-- Witness for C6: `bg %1` on the sample table resumes the stopped job. -/
theorem bgfg_resume_stopped_witness :
    do_bgfg sampleTable true (some (true, 1))
      = { table := sampleTable.set 0 { Job.mk 100 1 ST "sleep 5 " with state := BG },
          kills := [{ pgid := 100, sig := SIGCONT }],
          out := ["[1] (100) sleep 5 "],
          waited := none } :=
  ((bgfg_resume_stopped sampleTable 1 0 (Job.mk 100 1 ST "sleep 5 ") rfl).1
    (by decide)).1

/-- Claim C7 is corrected: this counterexample shows the claim false as
stated.  With every job id taken, `addjob` fails and reports the exhaustion
and the table is unchanged — but the requested job's process has already
been started: `eval` forks the child (and gives it its own process group)
before ever consulting the table, so the trace of the foreground command
`zzz` on the full table still begins with the fork. -/
theorem launch_on_full_table_counterexample :
    freejid fullTable = 0
    ∧ evalExternal fullTable 999 false "zzz "
        = some (fullTable,
            [Act.fork 999, Act.setpgid 999 999, Act.registerJob 999 FG false,
             Act.print "Tried to create too many jobs", Act.wait 999])
    ∧ Act.fork 999
        ∈ [Act.fork 999, Act.setpgid 999 999, Act.registerJob 999 FG false,
           Act.print "Tried to create too many jobs", Act.wait 999] := by
  decide

/-- Claim C7 (amended): when the job table's capacity is exhausted, `addjob`
fails and reports the exhaustion, no job is registered and the existing
entries are unchanged; the child process, however, has already been forked
before registration and continues running untracked. -/
theorem launch_on_full_table (t : JobTable) (p : Nat) (cmd : String)
    (hp : p ≠ 0) (hfull : freejid t = 0) :
    evalExternal t p false cmd
      = some (t,
          [Act.fork p, Act.setpgid p p, Act.registerJob p FG false,
           Act.print "Tried to create too many jobs", Act.wait p]) := by
  have ha : addjob t p FG cmd = (t, false, ["Tried to create too many jobs"]) := by
    unfold addjob
    rw [if_neg hp, if_pos hfull]
  have he : evalExternal t p false cmd
      = match addjob t p FG cmd with
        | (t1, ok, msgs) =>
          some (t1, [Act.fork p, Act.setpgid p p, Act.registerJob p FG ok]
            ++ msgs.map Act.print ++ [Act.wait p]) := rfl
  rw [he, ha]
  rfl

/-- Witness for the amended C7, at the concrete full table. -/
theorem launch_on_full_table_witness :
    evalExternal fullTable 451 false "sleep 5 "
      = some (fullTable,
          [Act.fork 451, Act.setpgid 451 451, Act.registerJob 451 FG false,
           Act.print "Tried to create too many jobs", Act.wait 451]) :=
  launch_on_full_table fullTable 451 "sleep 5 " (by decide) (by decide)

/-- Claim C8: with no tracked foreground job the SIGTSTP handler is fatal
(the `exit(1)` outcome, sent no signal); with a foreground pid `p` (unique in
the table) the lookup always succeeds, the handler fans SIGTSTP out to `p`'s
whole process group, and the slot it marks stopped is the foreground job
itself. -/
theorem sigtstp_stop_or_fatal :
    (∀ t : JobTable, fgpid t = 0 → sigtstp_handler t = ([], none))
    ∧ (∀ (t : JobTable) (p : Nat), fgpid t = p → p ≠ 0 →
        (getjobpidLoc t p).isSome = true)
    ∧ (∀ (t : JobTable) (p i : Nat) (j : Job), fgpid t = p → p ≠ 0 →
        t.countP (fun x => x.pid == p) ≤ 1 →
        getjobpidLoc t p = some (i, j) →
        j.state = FG ∧ j.pid = p
        ∧ sigtstp_handler t
            = ([{ pgid := p, sig := SIGTSTP }],
               some (t.set i { j with state := ST }))) := by
  refine ⟨?_, ?_, ?_⟩
  · intro t h
    unfold sigtstp_handler
    have hloc : getjobpidLoc t (fgpid t) = none := by
      rw [h]
      unfold getjobpidLoc
      rw [if_pos rfl]
    rw [hloc, if_pos h]
  · intro t p hfg hp
    have hc : countFG t ≠ 0 := by
      intro h0
      exact hp (hfg ▸ (fgpid_eq_zero_of_countFG_zero h0) ▸ rfl)
    obtain ⟨i0, j0, _, hfgpid, _, hmem0⟩ := fgpid_of_countFG_pos hc
    have hq0 : (fun x => x.pid == p) j0 = true := by
      simp [show j0.pid = p by rw [← hfg, hfgpid]]
    obtain ⟨pr, hpr⟩ := findLoc_isSome_of_mem (q := fun x => x.pid == p) hmem0 hq0
    unfold getjobpidLoc
    rw [if_neg hp, hpr]
    rfl
  · intro t p i j hfg hp hcount hloc
    have hc : countFG t ≠ 0 := by
      intro h0
      exact hp (hfg ▸ (fgpid_eq_zero_of_countFG_zero h0) ▸ rfl)
    obtain ⟨i0, j0, hfind, hfgpid, hstate0, _⟩ := fgpid_of_countFG_pos hc
    obtain ⟨hget0, _⟩ := findLoc_some (t := t) (i := i0) (j := j0) hfind
    obtain ⟨hget1, hpid1, _⟩ := getjobpidLoc_some hloc
    have hj0p : j0.pid = p := by rw [← hfg, hfgpid]
    have hidx : i = i0 :=
      getElem?_eq_of_countP_le_one (fun x => x.pid == p) t i i0 j j0 hcount
        hget1 hget0 (by simp [hpid1]) (by simp [hj0p])
    have hjj : j = j0 := by
      rw [hidx] at hget1
      rw [hget1] at hget0
      exact Option.some.injEq .. ▸ hget0.symm ▸ rfl
    refine ⟨by rw [hjj]; exact hstate0, hpid1, ?_⟩
    unfold sigtstp_handler
    have hloc2 : getjobpidLoc t (fgpid t) = some (i, j) := by rw [hfg]; exact hloc
    rw [hloc2, hfg, if_neg hp]

/-- Witness for C8: stopping the foreground job of the sample table. -/
theorem sigtstp_stop_or_fatal_witness :
    (Job.mk 300 3 FG "cat ").state = FG ∧ (Job.mk 300 3 FG "cat ").pid = 300
    ∧ sigtstp_handler sampleTable
        = ([{ pgid := 300, sig := SIGTSTP }],
           some (sampleTable.set 2 { Job.mk 300 3 FG "cat " with state := ST })) :=
  sigtstp_stop_or_fatal.2.2 sampleTable 300 2 (Job.mk 300 3 FG "cat ")
    (by decide) (by decide) (by decide) (by decide)

/-- Claim C9: in the SIGCHLD handler's stopped and signal-terminated
branches the notice is composed from the looked-up record's fields without a
null check: under the precondition that the reaped pid is registered, the
lookup's not-found branch is unreachable and the handler is safe; without
it, both branches reach the null dereference (the `none` outcome) — e.g.
reaping pid 5 against the empty table. -/
theorem sigchld_lookup_unguarded :
    (∀ (t : JobTable) (p s : Nat), (getjobpidLoc t p).isSome = true →
        (sigchld_step t p (WStatus.stopped s)).isSome = true
        ∧ (sigchld_step t p (WStatus.signaled s)).isSome = true)
    ∧ sigchld_step [] 5 (WStatus.stopped 20) = none
    ∧ sigchld_step [] 5 (WStatus.signaled 9) = none := by
  refine ⟨?_, by decide, by decide⟩
  intro t p s h
  cases hloc : getjobpidLoc t p with
  | none => rw [hloc] at h; exact absurd h (by simp)
  | some pr =>
    constructor
    · unfold sigchld_step
      rw [hloc]
      rfl
    · unfold sigchld_step
      rw [hloc]
      rfl

/-- Witness for C9: the precondition holds for pid 200 of the sample table,
so the signal-terminated branch is safe there. -/
theorem sigchld_lookup_unguarded_witness :
    (sigchld_step sampleTable 200 (WStatus.signaled 9)).isSome = true :=
  (sigchld_lookup_unguarded.1 sampleTable 200 9 (by decide)).2

/-- Claim C10: when the requested built-in has no matching transition for the
job's state (`bg` on a Background or Foreground job, `fg` on a Foreground
job), `do_bgfg` falls through: it sends no signal, changes no table entry,
prints nothing and does not wait — for targets resolved by %jid or by pid. -/
theorem bgfg_no_transition_noop :
    ∀ (t : JobTable) (n i : Nat) (j : Job),
      (getjobjidLoc t n = some (i, j) →
        ((j.state = BG ∨ j.state = FG) →
          do_bgfg t true (some (true, n))
            = { table := t, kills := [], out := [], waited := none })
        ∧ (j.state = FG →
          do_bgfg t false (some (true, n))
            = { table := t, kills := [], out := [], waited := none }))
      ∧ (getjobpidLoc t n = some (i, j) →
        ((j.state = BG ∨ j.state = FG) →
          do_bgfg t true (some (false, n))
            = { table := t, kills := [], out := [], waited := none })
        ∧ (j.state = FG →
          do_bgfg t false (some (false, n))
            = { table := t, kills := [], out := [], waited := none })) := by
  intro t n i j
  have hbg : (j.state = BG ∨ j.state = FG) →
      bgfgAct t true i j = { table := t, kills := [], out := [], waited := none } := by
    intro hs
    refine bgfgAct_noop t true i j ?_ ?_
    · intro hand
      rcases hs with hs | hs <;> rw [hs] at hand <;>
        exact absurd hand.2 (by decide)
    · intro hand
      exact absurd hand.1 (by simp)
  have hfg : j.state = FG →
      bgfgAct t false i j = { table := t, kills := [], out := [], waited := none } := by
    intro hs
    refine bgfgAct_noop t false i j ?_ ?_
    · intro hand
      exact absurd hand.1 (by simp)
    · intro hand
      rw [hs] at hand
      rcases hand.2 with h2 | h2 <;> exact absurd h2 (by decide)
  constructor
  · intro hloc
    rw [do_bgfg_jid_found true hloc, do_bgfg_jid_found false hloc]
    exact ⟨hbg, hfg⟩
  · intro hloc
    rw [do_bgfg_pid_found true hloc, do_bgfg_pid_found false hloc]
    exact ⟨hbg, hfg⟩

/-- Witness for C10: `bg %2` on the already-running background job of the
sample table does nothing at all. -/
theorem bgfg_no_transition_noop_witness :
    do_bgfg sampleTable true (some (true, 2))
      = { table := sampleTable, kills := [], out := [], waited := none } :=
  ((bgfg_no_transition_noop sampleTable 2 1 (Job.mk 200 2 BG "sleep 9 & ")).1
    (by decide)).1 (Or.inl rfl)

end Tsh
